import Mathlib

/-!
Shallow embedding of the log-viewer engine of this repository, from
`src/model/log_model.rs` and `src/messages/log_message.rs`.

Conventions of the embedding:
* Rust `usize` values are modelled as `Nat`; `checked_sub(a, b).unwrap_or(0)`
  and `saturating_sub` coincide with truncated `Nat` subtraction, and the other
  `checked_sub(..).unwrap_or(d)` sites are spelled out as conditionals.
* Rust `String` fields are Lean `String`s; character-level operations work on
  `String.data` (the list of characters).
* File I/O in `refresh_logs` is modelled by passing the result of the read as
  an argument (`some s` = successful `fs::read_to_string`, `none` = any I/O
  failure, which the source maps to the empty string with `unwrap_or`).
* The external fuzzy-matching crate is not part of this repository's sources;
  it is modelled from the spec, parameterized by a similarity score function.
-/

namespace LogView

/-- The `Filter` enum of log_model.rs. -/
inductive Filter where
  | INFO
  | WARNING
  | ERROR
  | CRITICAL
  | DEBUG
  | SELECT
  | NONE
  deriving DecidableEq

/-- The `RunningState` enum of log_model.rs. -/
inductive RunningState where
  | Running
  | Done
  deriving DecidableEq

/-- The `SearchMode` enum of log_model.rs. -/
inductive SearchMode where
  | Search
  | None
  deriving DecidableEq

/-- The `Message` enum of log_message.rs.  Note: the `update` match in
log_model.rs also names a `Message::RefreshLogs` variant that this enum does
not declare, so no such message value can ever be constructed; the log refresh
itself is modelled by `refresh_logs` below. -/
inductive Message where
  | MoveUp
  | MoveDown
  | MoveTop
  | MoveBottom
  | AddChar (c : Char)
  | Delete
  | MoveCursorLeft
  | MoveCursorRight
  | MoveUpPage
  | MoveDownPage
  | ToggleSearch
  | ApplyFilter (f : Filter)
  | Quit
  deriving DecidableEq

/-- The `Model` struct of log_model.rs. -/
structure Model where
  view_offset : Nat
  view_height : Nat
  g_modifier : Bool
  search_mode : SearchMode
  search_input : String
  cursor_pos : Nat
  log_path : String
  log_filter : Filter
  running : RunningState
  logs : List String
  deriving DecidableEq

/-- Byte length of a character sequence under UTF-8, as Rust `str::len`. -/
def utf8Len (l : List Char) : Nat := (l.map Char.utf8Size).sum

/-- Byte offsets of the characters of a string, as Rust
`char_indices().map(|(i, _)| i)`; `a` is the number of bytes already
consumed. -/
def charOffsets : Nat → List Char → List Nat
  | _, [] => []
  | a, c :: cs => a :: charOffsets (a + c.utf8Size) cs

/-- Finish one line segment that was terminated by a newline: Rust `lines()`
strips one carriage return directly before the newline.  `acc` holds the
segment's characters in reverse. -/
def finishSeg (acc : List Char) : String :=
  match acc with
  | c :: rest => if c = '\r' then String.mk rest.reverse else String.mk acc.reverse
  | [] => ""

/-- Worker for `rustLines`: split on newline; the final segment (not
terminated by a newline) is emitted as-is and only if nonempty. -/
def rustLinesAux : List Char → List Char → List String
  | acc, [] => if acc.isEmpty then [] else [String.mk acc.reverse]
  | acc, c :: cs =>
      if c = '\n' then finishSeg acc :: rustLinesAux [] cs
      else rustLinesAux (c :: acc) cs

/-- Rust `str::lines()` as used by `refresh_logs` (each produced line is then
`to_string`ed, which is the identity here). -/
def rustLines (s : String) : List String := rustLinesAux [] s.data

/-- Rust `str::contains(needle)`: substring containment, case-sensitive.
For valid UTF-8, a byte-level substring occurrence of a valid needle always
lies on character boundaries (UTF-8 is self-synchronizing), so character-level
infix containment is the same relation. -/
def containsStr (hay needle : String) : Bool := decide (needle.data <:+: hay.data)

/-- log_model.rs `byte_index`: the byte index of the `cursor_pos`-th
character, or the byte length of the whole string when the cursor is past the
last character (`unwrap_or(self.search_input.len())`). -/
def byte_index (m : Model) : Nat :=
  ((charOffsets 0 m.search_input.data).getD m.cursor_pos (utf8Len m.search_input.data))

/-- log_model.rs `clamp_cursor`: `new_cursor_pos.clamp(0, chars().count())`;
on `Nat` the lower bound is vacuous, so this is `min` with the character
count (`String.length` counts characters). -/
def clamp_cursor (m : Model) (new_cursor_pos : Nat) : Nat :=
  min new_cursor_pos m.search_input.length

/-- log_model.rs `reset_cursor`. -/
def reset_cursor (m : Model) : Model := { m with cursor_pos := 0 }

/-- log_model.rs `move_cursor_left` (`saturating_sub 1`, then clamp). -/
def move_cursor_left (m : Model) : Model :=
  { m with cursor_pos := clamp_cursor m (m.cursor_pos - 1) }

/-- log_model.rs `move_cursor_right` (`saturating_add 1`, then clamp; `Nat`
addition does not overflow). -/
def move_cursor_right (m : Model) : Model :=
  { m with cursor_pos := clamp_cursor m (m.cursor_pos + 1) }

/-- log_model.rs `enter_char`: the source inserts the character into the byte
string at `byte_index`; `byte_index` always equals the byte offset of the
`cursor_pos`-th character (theorem `byte_index_eq` below), so the insertion is
exactly the character-level insertion before position `cursor_pos`.  Then
`move_cursor_right`. -/
def enter_char (m : Model) (new_char : Char) : Model :=
  let d := m.search_input.data
  let m1 := { m with search_input := String.mk (d.take m.cursor_pos ++ new_char :: d.drop m.cursor_pos) }
  move_cursor_right m1

/-- log_model.rs `delete_char`: when the cursor is not leftmost, rebuild the
string from the characters before index `cursor_pos - 1` and those from index
`cursor_pos` on (`chars().take(..)` / `chars().skip(..)`), then
`move_cursor_left`. -/
def delete_char (m : Model) : Model :=
  if m.cursor_pos ≠ 0 then
    let from_left_to_current_index := m.cursor_pos - 1
    let before_char_to_delete := m.search_input.data.take from_left_to_current_index
    let after_char_to_delete := m.search_input.data.drop m.cursor_pos
    let m1 := { m with search_input := String.mk (before_char_to_delete ++ after_char_to_delete) }
    move_cursor_left m1
  else m

/-- log_model.rs `reset_search`: clear the buffer, `reset_cursor`, leave
search mode. -/
def reset_search (m : Model) : Model :=
  { reset_cursor { m with search_input := "" } with search_mode := SearchMode.None }

/-- log_model.rs `refresh_logs`.  The file read is passed in as `readResult`
(`none` models any I/O error; the source then proceeds with the empty
string).  If the log list grew and the view offset is nonzero, the offset is
compensated by the number of new lines. -/
def refresh_logs (m : Model) (readResult : Option String) : Model :=
  let logs := rustLines (readResult.getD "")
  let m1 :=
    if logs.length > m.logs.length ∧ m.view_offset ≠ 0 then
      { m with view_offset := m.view_offset + (logs.length - m.logs.length) }
    else m
  { m1 with logs := logs }

/-- The second (main) match of log_model.rs `update`.  The source match has
no arm for `Message::MoveUpPage` and `Message::MoveDownPage` (it is
non-exhaustive over the declared `Message` enum; the only extra arm it has
names the undeclared variant `Message::RefreshLogs`), so those two messages
are modelled as leaving the model unchanged. -/
def updateMain (m : Model) : Message → Model
  | Message.MoveUp => { m with view_offset := m.view_offset + 1 }
  | Message.MoveDown =>
      if m.view_offset > 0 then { m with view_offset := m.view_offset - 1 } else m
  | Message.ApplyFilter f => { m with log_filter := f, view_offset := 0 }
  | Message.Quit => { m with running := RunningState.Done }
  | Message.ToggleSearch =>
      match m.search_mode with
      | SearchMode.Search => reset_search m
      | SearchMode.None => { m with search_mode := SearchMode.Search }
  | Message.AddChar c => enter_char m c
  | Message.Delete => delete_char m
  | Message.MoveCursorLeft => move_cursor_left m
  | Message.MoveCursorRight => move_cursor_right m
  | Message.MoveTop => { m with g_modifier := true }
  | Message.MoveBottom => { m with view_offset := 0 }
  | Message.MoveUpPage => m
  | Message.MoveDownPage => m

/-- log_model.rs `update`: first the pending-g check — when `g_modifier` is
set, a `MoveTop` message jumps to `0xffff` and returns early (the source does
NOT clear `g_modifier` on this path), any other message clears `g_modifier`
and falls through to the main match. -/
def update (m : Model) (msg : Message) : Model :=
  if m.g_modifier then
    match msg with
    | Message.MoveTop => { m with view_offset := 0xffff }
    | _ => updateMain { m with g_modifier := false } msg
  else updateMain m msg

/-- The filter-string match at the top of log_model.rs `get_filtered_logs`. -/
def filter_str : Filter → String
  | Filter.INFO => "INFO"
  | Filter.WARNING => "WARNING"
  | Filter.ERROR => "ERROR"
  | Filter.CRITICAL => "CRITICAL"
  | Filter.DEBUG => "DEBUG"
  | Filter.NONE => ""
  | Filter.SELECT => ""

/-- The filter stage of log_model.rs `get_filtered_logs`:
`logs.iter().filter(|line| line.contains(filter_str))`. -/
def filter_logs (f : Filter) (logs : List String) : List String :=
  logs.filter (fun line => containsStr line (filter_str f))

/-- Modelled from the spec: the external fuzzy matcher
`rust_fuzzy_search::fuzzy_search_threshold` (a crate dependency whose code is
not part of this repository).  Per the spec it scores each candidate line
against the query with an implementation-defined similarity metric (here the
parameter `score`), excludes candidates scoring below the threshold, and
returns the rest ranked by descending relevance score. -/
def fuzzy_search_threshold (score : String → String → Rat) (query : String)
    (logs : List String) (threshold : Rat) : List (String × Rat) :=
  List.insertionSort (fun a b => b.2 ≤ a.2)
    ((logs.filter (fun l => threshold ≤ score query l)).map (fun l => (l, score query l)))

/-- log_model.rs `apply_search`, the branch taken when the query is nonempty:
run the threshold search, keep the matched lines (`res.0`), and reverse so
the best match comes last. -/
def apply_search (score : String → String → Rat) (m : Model) (logs : List String) : List String :=
  ((fuzzy_search_threshold score m.search_input logs (0.4 : Rat)).map (fun res => res.1)).reverse

/-- The windowing branch of log_model.rs `get_filtered_logs` (search
inactive): clamp the offset when `view_offset + view_height` overshoots, then
`end_idx = len.checked_sub(offset).unwrap_or(height)`,
`start_idx = end_idx.checked_sub(height).unwrap_or(0)`, and return the drained
slice `logs[start_idx..end_idx)`. -/
def crop (m : Model) (logs : List String) : Model × List String :=
  let m1 :=
    if m.view_offset + m.view_height > logs.length then
      { m with view_offset := logs.length - m.view_height }
    else m
  let end_idx := if m1.view_offset ≤ logs.length then logs.length - m1.view_offset else m1.view_height
  let start_idx := end_idx - m1.view_height
  (m1, (logs.drop start_idx).take (end_idx - start_idx))

/-- log_model.rs `get_filtered_logs`: the filter stage, then either the
search stage (nonempty query; the model is returned unchanged) or the
windowing crop. -/
def get_filtered_logs (score : String → String → Rat) (m : Model) : Model × List String :=
  let logs := filter_logs m.log_filter m.logs
  if m.search_input.isEmpty then crop m logs
  else (m, apply_search score m logs)

/-- The default model (all fields as produced by `Model::new` before the
first refresh: zero offsets, no modifier, no search, filter `NONE`,
running). -/
def baseModel : Model :=
  { view_offset := 0
    view_height := 0
    g_modifier := false
    search_mode := SearchMode.None
    search_input := ""
    cursor_pos := 0
    log_path := ""
    log_filter := Filter.NONE
    running := RunningState.Running
    logs := [] }

/-- A score function that gives every candidate the same zero relevance. -/
def zeroScore : String → String → Rat := fun _ _ => 0

/-- Concrete model for the C1 counterexample: two lines, offset 1, height
larger than the list. -/
def mC1 : Model := { baseModel with view_offset := 1, view_height := 10, logs := ["a", "b"] }

/-- Concrete model for the C1 witness: five lines, offset 1, height 2. -/
def mC1w : Model :=
  { baseModel with
    view_offset := 1
    view_height := 2
    logs := ["a INFO 1", "b WARNING 1", "c ERROR 1", "d INFO 2", "e CRITICAL 1"] }

/-- Concrete model for the C10 witness: offset already at the jump sentinel,
height 3. -/
def mC10 : Model := { baseModel with view_offset := 0xffff, view_height := 3 }

/-- A line sequence longer than `0xffff + view_height` for the C10 witness. -/
def logsC10 : List String := List.replicate 70000 "x"

/-- Concrete model for the C3 witness: four stored lines, offset 2,
height 2. -/
def mC3 : Model :=
  { baseModel with
    logs := ["a", "b", "c", "d"]
    view_offset := 2
    view_height := 2 }

/-- File content for the C3 witness: the four stored lines plus two new
ones. -/
def sC3 : String := "a\nb\nc\nd\ne\nf"

/-- The appended lines of the C3 witness. -/
def extraC3 : List String := ["e", "f"]

/-- Concrete model for the C8 witness: a query with a multi-byte character,
cursor after it. -/
def mC8 : Model := { baseModel with search_input := "héllo", cursor_pos := 2 }

/-- Concrete model for the C4 witness: a nonempty query over two lines. -/
def mC4 : Model := { baseModel with search_input := "crit", logs := ["a INFO 1", "e CRITICAL 1"] }

/-- Score function for the C4 witness: only the CRITICAL line is relevant. -/
def scoreC4 : String → String → Rat := fun _ l => if l = "e CRITICAL 1" then 1 else 0

/-- Concrete model for the C4 counterexample: a nonempty query, scroll offset
7, while the search yields no results at all. -/
def mC4x : Model :=
  { baseModel with
    search_input := "zzz"
    view_offset := 7
    view_height := 5
    logs := ["a"] }

/-! ## Helper lemmas -/

/-- Every string contains the empty substring (Rust `contains("")` is
always true). -/
theorem containsStr_empty (hay : String) : containsStr hay "" = true := by
  simp [containsStr]

/-- A string's length (in characters) is the length of its character list. -/
theorem string_length_data (s : String) : s.length = s.data.length := rfl

/-- The character list of a packed string. -/
theorem string_data_mk (L : List Char) : (String.mk L).data = L := rfl

/-- The filter stage with an empty filter string keeps every line. -/
theorem filter_logs_empty_str (f : Filter) (hf : filter_str f = "") (logs : List String) :
    filter_logs f logs = logs := by
  apply List.filter_eq_self.mpr
  intro a _
  rw [hf]
  exact containsStr_empty a

/-! ## Claim C2 -/

/-- C2: the claim states that processing any next command while the two-key
modifier is pending resets the modifier flag, including when the command is
the completing jump-to-top key.  The code contradicts this: the completing
`MoveTop` arm returns early without clearing `g_modifier` (so after a
completed jump the very next `g` jumps again instead of arming a new
sequence), while any other command does clear it.  This theorem evaluates the
code at the failing input. -/
theorem c2_modifier_not_reset_on_completion :
    (update { baseModel with g_modifier := true } Message.MoveTop).g_modifier = true ∧
    (update { baseModel with g_modifier := true } Message.Quit).g_modifier = false ∧
    (update { baseModel with g_modifier := true } Message.MoveDown).g_modifier = false := by
  exact ⟨rfl, rfl, rfl⟩

/-! ## Claim C6 -/

/-- C6: when reading the log file fails for any reason (`none` read result),
`refresh_logs` produces an empty line sequence rather than an error, leaves
the running state unchanged (the engine keeps running and will retry on the
next refresh), and also leaves the scroll offset unchanged. -/
theorem c6_refresh_error_empty (m : Model) :
    (refresh_logs m none).logs = [] ∧
    (refresh_logs m none).running = m.running ∧
    (refresh_logs m none).view_offset = m.view_offset := by
  have h : rustLines "" = [] := rfl
  simp [refresh_logs, h]

/-! ## Claim C9 -/

/-- C9: the claim states every documented command — in particular page-up and
page-down — is realized by `update`, changing the scroll offset.  The code
contradicts this: the `update` match has no arm for `Message::MoveUpPage` or
`Message::MoveDownPage` (the messages the view produces for Ctrl-u/Ctrl-d),
so the model, and in particular its scroll offset, is left unchanged.  This
theorem evaluates the code at the failing input. -/
theorem c9_page_messages_unhandled :
    (update { baseModel with view_offset := 5 } Message.MoveUpPage).view_offset = 5 ∧
    (update { baseModel with view_offset := 5 } Message.MoveDownPage).view_offset = 5 ∧
    update { baseModel with view_offset := 5 } Message.MoveUpPage
      = { baseModel with view_offset := 5 } ∧
    update { baseModel with view_offset := 5 } Message.MoveDownPage
      = { baseModel with view_offset := 5 } := by
  exact ⟨rfl, rfl, rfl, rfl⟩

/-! ## Claim C5 -/

/-- C5: the filter stage.  With `NONE` or `SELECT` it returns all lines
unchanged in order; with a concrete category it returns exactly the lines
containing that category's literal keyword as a case-sensitive substring,
order-preserving and without deduplication (a sublist of the input), as in
the spec's scenario. -/
theorem c5_filter_stage (logs : List String) :
    filter_logs Filter.NONE logs = logs ∧
    filter_logs Filter.SELECT logs = logs ∧
    (∀ f : Filter, (filter_logs f logs).Sublist logs) ∧
    (∀ l, l ∈ filter_logs Filter.INFO logs ↔ l ∈ logs ∧ "INFO".data <:+: l.data) ∧
    (∀ l, l ∈ filter_logs Filter.WARNING logs ↔ l ∈ logs ∧ "WARNING".data <:+: l.data) ∧
    (∀ l, l ∈ filter_logs Filter.ERROR logs ↔ l ∈ logs ∧ "ERROR".data <:+: l.data) ∧
    (∀ l, l ∈ filter_logs Filter.CRITICAL logs ↔ l ∈ logs ∧ "CRITICAL".data <:+: l.data) ∧
    (∀ l, l ∈ filter_logs Filter.DEBUG logs ↔ l ∈ logs ∧ "DEBUG".data <:+: l.data) ∧
    filter_logs Filter.INFO ["a INFO 1", "b WARNING 1", "c ERROR 1", "d INFO 2", "e CRITICAL 1"]
      = ["a INFO 1", "d INFO 2"] := by
  refine ⟨filter_logs_empty_str Filter.NONE rfl logs, filter_logs_empty_str Filter.SELECT rfl logs,
    fun f => List.filter_sublist logs, ?_, ?_, ?_, ?_, ?_, by decide⟩ <;>
  · intro l
    simp [filter_logs, containsStr, filter_str, List.mem_filter]

/-! ## Windowing lemmas -/

/-- The windowing slice always has length `min height n`. -/
theorem length_crop (m : Model) (logs : List String) :
    (crop m logs).2.length = min m.view_height logs.length := by
  simp only [crop]
  split_ifs <;> simp <;> omega

/-- When the window fits (`offset + height ≤ n`), the pre-pass clamp leaves
the model unchanged and the slice is the `height` lines ending `offset` lines
before the end. -/
theorem crop_no_clamp (m : Model) (logs : List String)
    (h : m.view_offset + m.view_height ≤ logs.length) :
    crop m logs =
      (m, (logs.drop (logs.length - m.view_offset - m.view_height)).take m.view_height) := by
  simp only [crop]
  rw [if_neg (by omega : ¬(m.view_offset + m.view_height > logs.length))]
  rw [if_pos (by omega : m.view_offset ≤ logs.length)]
  have h3 : logs.length - m.view_offset - (logs.length - m.view_offset - m.view_height)
      = m.view_height := by omega
  rw [h3]

/-- Last element of a non-clamped, nonempty window: the line `offset` lines
before the end of the sequence. -/
theorem crop_getLast (m : Model) (logs : List String) (hh : 0 < m.view_height)
    (hle : m.view_offset + m.view_height ≤ logs.length) :
    (crop m logs).2.getLast? = logs[logs.length - 1 - m.view_offset]? := by
  rw [crop_no_clamp m logs hle]
  rw [List.getLast?_eq_getElem?]
  have hlen : ((logs.drop (logs.length - m.view_offset - m.view_height)).take
      m.view_height).length = m.view_height := by
    simp
    omega
  rw [hlen]
  rw [List.getElem?_take_of_lt (by omega)]
  rw [List.getElem?_drop]
  congr 1
  omega

/-- With an empty query, `get_filtered_logs` is the windowing crop of the
filter stage's output. -/
theorem get_filtered_logs_empty_query (score : String → String → Rat) (m : Model)
    (hq : m.search_input = "") :
    get_filtered_logs score m = crop m (filter_logs m.log_filter m.logs) := by
  have he : m.search_input.isEmpty = true := by rw [hq]; rfl
  simp [get_filtered_logs, he]

/-! ## Claim C1 -/

/-- C1 (amended): with an empty search query the windowing stage of
`get_filtered_logs` returns a contiguous slice of the filtered lines of
length `min height n`; the clause about the last element holds as stated
whenever the window is nonempty and fits, i.e. `0 < height` and
`offset + height ≤ n` (when `offset + height > n`, the pre-pass clamp
rewrites the offset first, so the slice's last element is governed by the
clamped offset instead — see the counterexample). -/
theorem c1_windowing_amended (score : String → String → Rat) (m : Model)
    (hq : m.search_input = "") :
    (get_filtered_logs score m).2.length
        = min m.view_height (filter_logs m.log_filter m.logs).length ∧
    (0 < m.view_height →
      m.view_offset + m.view_height ≤ (filter_logs m.log_filter m.logs).length →
      (get_filtered_logs score m).2.getLast? =
        (filter_logs m.log_filter m.logs)[(filter_logs m.log_filter m.logs).length - 1
          - m.view_offset]?) := by
  rw [get_filtered_logs_empty_query score m hq]
  exact ⟨length_crop m _, fun hh hle => crop_getLast m _ hh hle⟩

/-- C1 counterexample: on two lines with offset 1 and height 10 the query is
empty, the filter passes everything, and `offset < n`, yet the returned
slice's last element is the newest line, not `lines[n-1-offset]` — the
pre-pass clamp rewrote the offset to 0 because `offset + height > n`. -/
theorem c1_counterexample :
    mC1.search_input = "" ∧
    filter_logs mC1.log_filter mC1.logs = mC1.logs ∧
    mC1.view_offset < mC1.logs.length ∧
    (get_filtered_logs zeroScore mC1).2.getLast?
      ≠ mC1.logs[mC1.logs.length - 1 - mC1.view_offset]? := by
  decide

/-- Witness for `c1_windowing_amended` at a concrete input. -/
theorem c1_windowing_amended_witness :
    mC1w.search_input = "" ∧
    0 < mC1w.view_height ∧
    mC1w.view_offset + mC1w.view_height ≤ (filter_logs mC1w.log_filter mC1w.logs).length ∧
    (get_filtered_logs zeroScore mC1w).2.length
        = min mC1w.view_height (filter_logs mC1w.log_filter mC1w.logs).length ∧
    (get_filtered_logs zeroScore mC1w).2.getLast? =
      (filter_logs mC1w.log_filter mC1w.logs)[(filter_logs mC1w.log_filter mC1w.logs).length - 1
        - mC1w.view_offset]? :=
  ⟨rfl, by decide, by decide, (c1_windowing_amended zeroScore mC1w rfl).1,
    (c1_windowing_amended zeroScore mC1w rfl).2 (by decide) (by decide)⟩

/-! ## Claim C10 -/

/-- C10: the completed jump-to-top sequence sets the offset to the fixed
sentinel `0xffff` (65535), not an unbounded value; when the sequence being
windowed is longer than `0xffff + height`, the windowing clamp does not fire,
the offset stays at 65535 (which is then different from `length - height`,
the offset of the oldest window), and the displayed slice starts strictly
after the beginning of the sequence — the oldest lines are unreachable. -/
theorem c10_jump_to_top_sentinel (m : Model) (logs : List String) :
    (update { m with g_modifier := true } Message.MoveTop).view_offset = 0xffff ∧
    (m.view_offset = 0xffff → 0xffff + m.view_height < logs.length →
      (crop m logs).1.view_offset = 0xffff ∧
      logs.length - m.view_height ≠ 0xffff ∧
      0 < logs.length - 0xffff - m.view_height ∧
      (crop m logs).2
        = (logs.drop (logs.length - 0xffff - m.view_height)).take m.view_height) := by
  refine ⟨rfl, fun h1 h2 => ?_⟩
  have hcrop := crop_no_clamp m logs (by omega)
  refine ⟨?_, by omega, by omega, ?_⟩
  · rw [hcrop]
    exact h1
  · rw [hcrop, h1]

/-- Witness for `c10_jump_to_top_sentinel` at a concrete input (70000 lines,
height 3). -/
theorem c10_jump_to_top_sentinel_witness :
    mC10.view_offset = 0xffff ∧
    0xffff + mC10.view_height < logsC10.length ∧
    (update { mC10 with g_modifier := true } Message.MoveTop).view_offset = 0xffff ∧
    ((crop mC10 logsC10).1.view_offset = 0xffff ∧
     logsC10.length - mC10.view_height ≠ 0xffff ∧
     0 < logsC10.length - 0xffff - mC10.view_height ∧
     (crop mC10 logsC10).2
       = (logsC10.drop (logsC10.length - 0xffff - mC10.view_height)).take mC10.view_height) := by
  have h1 : mC10.view_offset = 0xffff := rfl
  have h2 : 0xffff + mC10.view_height < logsC10.length := by
    simp only [logsC10, List.length_replicate, mC10, baseModel]
    decide
  exact ⟨h1, h2, (c10_jump_to_top_sentinel mC10 logsC10).1,
    (c10_jump_to_top_sentinel mC10 logsC10).2 h1 h2⟩

/-! ## Claim C3 -/

/-- C3: a refresh whose read yields the stored lines plus `m` appended new
lines produces offset `k + m` when the current offset `k` is nonzero, and
keeps offset 0 when `k = 0`; moreover, with a nonzero, non-clamping offset
the visible window (the crop of the new state) shows exactly the same lines
as before the refresh. -/
theorem c3_offset_compensation (m : Model) (s : String) (extra : List String)
    (hs : rustLines s = m.logs ++ extra) (hne : extra ≠ []) :
    (0 < m.view_offset →
      (refresh_logs m (some s)).view_offset = m.view_offset + extra.length) ∧
    (m.view_offset = 0 → (refresh_logs m (some s)).view_offset = 0) ∧
    (refresh_logs m (some s)).logs = m.logs ++ extra ∧
    (0 < m.view_offset → m.view_offset + m.view_height ≤ m.logs.length →
      (crop (refresh_logs m (some s)) (refresh_logs m (some s)).logs).2
        = (crop m m.logs).2) := by
  have hex : 0 < extra.length := List.length_pos.mpr hne
  have hlen : (rustLines s).length = m.logs.length + extra.length := by
    rw [hs, List.length_append]
  have hlogs : (refresh_logs m (some s)).logs = m.logs ++ extra := by
    simp [refresh_logs, hs]
  have hoff : ∀ h0 : 0 < m.view_offset,
      (refresh_logs m (some s)).view_offset = m.view_offset + extra.length := by
    intro h0
    simp only [refresh_logs, Option.getD_some]
    rw [if_pos ⟨by omega, by omega⟩]
    show m.view_offset + ((rustLines s).length - m.logs.length) = m.view_offset + extra.length
    omega
  have hoff0 : m.view_offset = 0 → (refresh_logs m (some s)).view_offset = 0 := by
    intro h0
    simp only [refresh_logs, Option.getD_some]
    rw [if_neg (by simp [h0])]
    exact h0
  refine ⟨hoff, hoff0, hlogs, fun h0 hle => ?_⟩
  have hh : (refresh_logs m (some s)).view_height = m.view_height := by
    simp only [refresh_logs, Option.getD_some]
    split <;> rfl
  have hfit : (refresh_logs m (some s)).view_offset + (refresh_logs m (some s)).view_height
      ≤ (refresh_logs m (some s)).logs.length := by
    rw [hoff h0, hh, hlogs, List.length_append]
    omega
  rw [crop_no_clamp _ _ hfit, crop_no_clamp m m.logs hle]
  rw [hlogs, hoff h0, hh, List.length_append]
  have heq : m.logs.length + extra.length - (m.view_offset + extra.length) - m.view_height
      = m.logs.length - m.view_offset - m.view_height := by omega
  rw [heq]
  rw [List.drop_append_of_le_length (by omega)]
  rw [List.take_append_of_le_length]
  rw [List.length_drop]
  omega

/-- Witness for `c3_offset_compensation` at a concrete input. -/
theorem c3_offset_compensation_witness :
    rustLines sC3 = mC3.logs ++ extraC3 ∧
    extraC3 ≠ [] ∧
    0 < mC3.view_offset ∧
    mC3.view_offset + mC3.view_height ≤ mC3.logs.length ∧
    (refresh_logs mC3 (some sC3)).view_offset = mC3.view_offset + extraC3.length ∧
    (refresh_logs mC3 (some sC3)).logs = mC3.logs ++ extraC3 ∧
    (crop (refresh_logs mC3 (some sC3)) (refresh_logs mC3 (some sC3)).logs).2
      = (crop mC3 mC3.logs).2 :=
  ⟨by decide, by decide, by decide, by decide,
    (c3_offset_compensation mC3 sC3 extraC3 (by decide) (by decide)).1 (by decide),
    (c3_offset_compensation mC3 sC3 extraC3 (by decide) (by decide)).2.2.1,
    (c3_offset_compensation mC3 sC3 extraC3 (by decide) (by decide)).2.2.2 (by decide) (by decide)⟩

/-! ## Claim C7 -/

/-- Entering search mode from `Normal` (`SearchMode.None`): the mode becomes
`Search` and any pending modifier is consumed. -/
theorem update_toggle_from_none (m : Model) (h : m.search_mode = SearchMode.None) :
    (update m Message.ToggleSearch).search_mode = SearchMode.Search ∧
    (update m Message.ToggleSearch).g_modifier = false := by
  cases hg : m.g_modifier <;> simp [update, updateMain, hg, h]

/-- Character inserts keep the model in search mode, with no pending
modifier. -/
theorem addChars_keep_search_mode (cs : List Char) : ∀ (m : Model),
    m.search_mode = SearchMode.Search → m.g_modifier = false →
    (((cs.map Message.AddChar).foldl update m).search_mode = SearchMode.Search ∧
     ((cs.map Message.AddChar).foldl update m).g_modifier = false) := by
  induction cs with
  | nil => exact fun m hs hg => ⟨hs, hg⟩
  | cons c cs ih =>
      intro m hs hg
      have h1 : (update m (Message.AddChar c)).search_mode = SearchMode.Search := by
        simp [update, updateMain, hg, enter_char, move_cursor_right, hs]
      have h2 : (update m (Message.AddChar c)).g_modifier = false := by
        simp [update, updateMain, hg, enter_char, move_cursor_right]
      simpa using ih (update m (Message.AddChar c)) h1 h2

/-- C7: for every model in `Normal` mode and every sequence of typed
characters, entering `Search` mode, applying the inserts, then toggling again
(cancel) yields an empty search query, cursor 0, and search mode `None`. -/
theorem c7_search_roundtrip (m : Model) (cs : List Char)
    (h : m.search_mode = SearchMode.None) :
    (update ((cs.map Message.AddChar).foldl update (update m Message.ToggleSearch))
        Message.ToggleSearch).search_input = "" ∧
    (update ((cs.map Message.AddChar).foldl update (update m Message.ToggleSearch))
        Message.ToggleSearch).cursor_pos = 0 ∧
    (update ((cs.map Message.AddChar).foldl update (update m Message.ToggleSearch))
        Message.ToggleSearch).search_mode = SearchMode.None := by
  have h1 := update_toggle_from_none m h
  have h2 := addChars_keep_search_mode cs (update m Message.ToggleSearch) h1.1 h1.2
  set m2 := (cs.map Message.AddChar).foldl update (update m Message.ToggleSearch) with hm2
  simp [update, updateMain, h2.1, h2.2, reset_search, reset_cursor]

/-- Witness for `c7_search_roundtrip` at a concrete input. -/
theorem c7_search_roundtrip_witness :
    baseModel.search_mode = SearchMode.None ∧
    ((update ((['l', 'o', 'g'].map Message.AddChar).foldl update
        (update baseModel Message.ToggleSearch)) Message.ToggleSearch).search_input = "" ∧
     (update ((['l', 'o', 'g'].map Message.AddChar).foldl update
        (update baseModel Message.ToggleSearch)) Message.ToggleSearch).cursor_pos = 0 ∧
     (update ((['l', 'o', 'g'].map Message.AddChar).foldl update
        (update baseModel Message.ToggleSearch)) Message.ToggleSearch).search_mode
       = SearchMode.None) :=
  ⟨rfl, c7_search_roundtrip baseModel ['l', 'o', 'g'] rfl⟩

/-! ## Claim C8 -/

/-- The byte offset list produced by `charOffsets` indexes prefix byte
lengths: entry `i` (or the default, past the end) is the byte length of the
first `i` characters. -/
theorem charOffsets_getD (l : List Char) : ∀ (a i : Nat),
    (charOffsets a l).getD i (a + utf8Len l) = a + utf8Len (l.take i) := by
  induction l with
  | nil =>
      intro a i
      simp [charOffsets, utf8Len]
  | cons c cs ih =>
      intro a i
      cases i with
      | zero => simp [charOffsets, utf8Len]
      | succ i =>
          have h1 : a + utf8Len (c :: cs) = a + c.utf8Size + utf8Len cs := by
            simp [utf8Len]
            omega
          have h2 : a + c.utf8Size + utf8Len (cs.take i) = a + utf8Len ((c :: cs).take (i + 1)) := by
            simp [utf8Len]
            omega
          calc (charOffsets a (c :: cs)).getD (i + 1) (a + utf8Len (c :: cs))
              = (charOffsets (a + c.utf8Size) cs).getD i (a + utf8Len (c :: cs)) := by
                simp [charOffsets]
            _ = (charOffsets (a + c.utf8Size) cs).getD i (a + c.utf8Size + utf8Len cs) := by
                rw [h1]
            _ = a + c.utf8Size + utf8Len (cs.take i) := ih (a + c.utf8Size) i
            _ = a + utf8Len ((c :: cs).take (i + 1)) := h2

/-- `byte_index` always lands on a character boundary: it is exactly the
UTF-8 byte length of the first `cursor_pos` characters, so the byte-level
`String::insert` of the source never panics and coincides with the
character-level insertion. -/
theorem byte_index_eq (m : Model) :
    byte_index m = utf8Len (m.search_input.data.take m.cursor_pos) := by
  have h := charOffsets_getD m.search_input.data 0 m.cursor_pos
  simpa [byte_index] using h

/-- C8: for every model whose cursor lies within `[0, query length]` (in
characters) and every character: the insertion point is a valid character
boundary (no panic), insert/delete/cursor moves yield well-formed states, the
operations act on whole characters (lengths change by exactly one), and the
cursor invariant `cursor ∈ [0, length]` is preserved by all four editing
operations. -/
theorem c8_editor_safety (m : Model) (c : Char)
    (h : m.cursor_pos ≤ m.search_input.length) :
    byte_index m = utf8Len (m.search_input.data.take m.cursor_pos) ∧
    (enter_char m c).search_input.length = m.search_input.length + 1 ∧
    (enter_char m c).cursor_pos = m.cursor_pos + 1 ∧
    (enter_char m c).cursor_pos ≤ (enter_char m c).search_input.length ∧
    (delete_char m).cursor_pos ≤ (delete_char m).search_input.length ∧
    (0 < m.cursor_pos →
      (delete_char m).search_input.length + 1 = m.search_input.length ∧
      (delete_char m).cursor_pos = m.cursor_pos - 1) ∧
    (move_cursor_left m).search_input = m.search_input ∧
    (move_cursor_left m).cursor_pos ≤ m.search_input.length ∧
    (move_cursor_right m).search_input = m.search_input ∧
    (move_cursor_right m).cursor_pos ≤ m.search_input.length := by
  rw [string_length_data] at h
  have henter_len : (enter_char m c).search_input.length = m.search_input.length + 1 := by
    simp only [enter_char, move_cursor_right, clamp_cursor]
    simp only [string_length_data]
    simp
    simp only [string_length_data]
    omega
  have henter_cur : (enter_char m c).cursor_pos = m.cursor_pos + 1 := by
    simp only [enter_char, move_cursor_right, clamp_cursor]
    simp only [string_length_data]
    simp
    simp only [string_length_data]
    omega
  refine ⟨byte_index_eq m, henter_len, henter_cur,
    by rw [henter_cur, henter_len, string_length_data]; omega, ?_, ?_, rfl, ?_, rfl, ?_⟩
  · by_cases hc : m.cursor_pos = 0
    · have hid : delete_char m = m := by
        simp [delete_char, hc]
      rw [hid, hc, string_length_data]
      exact Nat.zero_le _
    · simp only [delete_char, move_cursor_left, clamp_cursor, if_pos hc]
      simp only [string_length_data]
      simp
  · intro hc
    have hc0 : ¬m.cursor_pos = 0 := by omega
    constructor
    · simp only [delete_char, move_cursor_left, clamp_cursor, if_pos hc0]
      simp only [string_length_data]
      simp
      simp only [string_length_data]
      omega
    · simp only [delete_char, move_cursor_left, clamp_cursor, if_pos hc0]
      simp only [string_length_data]
      simp
      simp only [string_length_data]
      omega
  · rw [string_length_data]
    simp only [move_cursor_left, clamp_cursor]
    simp only [string_length_data]
    simp
  · rw [string_length_data]
    simp only [move_cursor_right, clamp_cursor]
    simp only [string_length_data]
    simp

/-- Witness for `c8_editor_safety` at a concrete input with a multi-byte
character before the cursor. -/
theorem c8_editor_safety_witness :
    mC8.cursor_pos ≤ mC8.search_input.length ∧
    (byte_index mC8 = utf8Len (mC8.search_input.data.take mC8.cursor_pos) ∧
     (enter_char mC8 'x').search_input.length = mC8.search_input.length + 1 ∧
     (enter_char mC8 'x').cursor_pos = mC8.cursor_pos + 1 ∧
     (enter_char mC8 'x').cursor_pos ≤ (enter_char mC8 'x').search_input.length ∧
     (delete_char mC8).cursor_pos ≤ (delete_char mC8).search_input.length ∧
     (0 < mC8.cursor_pos →
       (delete_char mC8).search_input.length + 1 = mC8.search_input.length ∧
       (delete_char mC8).cursor_pos = mC8.cursor_pos - 1) ∧
     (move_cursor_left mC8).search_input = mC8.search_input ∧
     (move_cursor_left mC8).cursor_pos ≤ mC8.search_input.length ∧
     (move_cursor_right mC8).search_input = mC8.search_input ∧
     (move_cursor_right mC8).cursor_pos ≤ mC8.search_input.length) :=
  ⟨by decide, c8_editor_safety mC8 'x' (by decide)⟩

/-! ## Claim C4 -/

/-- With a nonempty query, `get_filtered_logs` takes the search branch: the
result is the searched lines, and the model — in particular the scroll
offset — is returned unchanged. -/
theorem get_filtered_logs_nonempty_query (score : String → String → Rat) (m : Model)
    (hq : m.search_input ≠ "") :
    get_filtered_logs score m
      = (m, apply_search score m (filter_logs m.log_filter m.logs)) := by
  have he : m.search_input.isEmpty = false := by
    cases hb : m.search_input.isEmpty
    · rfl
    · exact absurd ((String.isEmpty_iff m.search_input).mp hb) hq
  simp [get_filtered_logs, he]

/-- C4 (amended): with a nonempty search query, `get_filtered_logs` returns
exactly the filtered lines whose score against the query meets the 0.4
threshold, in reverse rank order (ascending score, best match last), with no
height-based truncation (the result does not depend on the view height); the
model — in particular the scroll offset — is returned unchanged: contrary to
the claim, the offset is NOT re-clamped to the search-result length (see the
counterexample). -/
theorem c4_search_stage_amended (score : String → String → Rat) (m : Model)
    (hq : m.search_input ≠ "") :
    (∀ l, l ∈ (get_filtered_logs score m).2 ↔
        l ∈ filter_logs m.log_filter m.logs ∧ (0.4 : Rat) ≤ score m.search_input l) ∧
    ((get_filtered_logs score m).2).Sorted
      (fun a b => score m.search_input a ≤ score m.search_input b) ∧
    (get_filtered_logs score m).1 = m ∧
    (∀ h : Nat, (get_filtered_logs score { m with view_height := h }).2
        = (get_filtered_logs score m).2) := by
  rw [get_filtered_logs_nonempty_query score m hq]
  refine ⟨?_, ?_, rfl, ?_⟩
  · intro l
    show l ∈ apply_search score m (filter_logs m.log_filter m.logs) ↔ _
    simp only [apply_search, fuzzy_search_threshold, List.mem_reverse, List.mem_map]
    constructor
    · rintro ⟨p, hp, rfl⟩
      have hp2 : p ∈ ((filter_logs m.log_filter m.logs).filter
          (fun l => (0.4 : Rat) ≤ score m.search_input l)).map
            (fun l => (l, score m.search_input l)) :=
        (List.perm_insertionSort _ _).mem_iff.mp hp
      simp only [List.mem_map, List.mem_filter, decide_eq_true_eq] at hp2
      obtain ⟨a, ⟨ha1, ha2⟩, rfl⟩ := hp2
      exact ⟨ha1, ha2⟩
    · rintro ⟨h1, h2⟩
      refine ⟨(l, score m.search_input l), (List.perm_insertionSort _ _).mem_iff.mpr ?_, rfl⟩
      simp only [List.mem_map, List.mem_filter, decide_eq_true_eq]
      exact ⟨l, ⟨h1, h2⟩, rfl⟩
  · show (apply_search score m (filter_logs m.log_filter m.logs)).Sorted _
    haveI ht : IsTotal (String × Rat) (fun a b => b.2 ≤ a.2) := ⟨fun a b => le_total b.2 a.2⟩
    haveI htr : IsTrans (String × Rat) (fun a b => b.2 ≤ a.2) :=
      ⟨fun a b c hab hbc => le_trans hbc hab⟩
    have hsorted := List.sorted_insertionSort (fun a b : String × Rat => b.2 ≤ a.2)
      (((filter_logs m.log_filter m.logs).filter
          (fun l => (0.4 : Rat) ≤ score m.search_input l)).map
        (fun l => (l, score m.search_input l)))
    have hsnd : ∀ p ∈ fuzzy_search_threshold score m.search_input
        (filter_logs m.log_filter m.logs) (0.4 : Rat), p.2 = score m.search_input p.1 := by
      intro p hp
      have hp2 := (List.perm_insertionSort (fun a b : String × Rat => b.2 ≤ a.2) _).mem_iff.mp hp
      simp only [List.mem_map] at hp2
      obtain ⟨a, _, rfl⟩ := hp2
      rfl
    have h2 : (fuzzy_search_threshold score m.search_input
        (filter_logs m.log_filter m.logs) (0.4 : Rat)).Pairwise
          (fun p pp : String × Rat =>
            score m.search_input pp.1 ≤ score m.search_input p.1) := by
      refine List.Pairwise.imp_of_mem ?_ hsorted
      intro a b ha hb hr
      rw [← hsnd a ha, ← hsnd b hb]
      exact hr
    have h3 : ((fuzzy_search_threshold score m.search_input
        (filter_logs m.log_filter m.logs) (0.4 : Rat)).map (fun res => res.1)).Pairwise
          (fun a b => score m.search_input b ≤ score m.search_input a) :=
      List.pairwise_map.mpr h2
    exact List.pairwise_reverse.mpr h3
  · intro h
    rw [get_filtered_logs_nonempty_query score { m with view_height := h } hq]
    rfl

/-- C4 counterexample: nonempty query, scroll offset 7, but the search
yields zero results; the code leaves the offset at 7, which does not lie
within the result length — there is no re-clamping side effect in the search
branch. -/
theorem c4_counterexample :
    mC4x.search_input ≠ "" ∧
    (get_filtered_logs zeroScore mC4x).2.length = 0 ∧
    (get_filtered_logs zeroScore mC4x).1.view_offset = 7 ∧
    ¬ (get_filtered_logs zeroScore mC4x).1.view_offset
        ≤ (get_filtered_logs zeroScore mC4x).2.length := by
  have hne : mC4x.search_input ≠ "" := by decide
  have hg := get_filtered_logs_nonempty_query zeroScore mC4x hne
  have hp : ¬ ((0.4 : Rat) ≤ zeroScore mC4x.search_input "a") := by
    norm_num [zeroScore]
  have hfl : filter_logs mC4x.log_filter mC4x.logs = ["a"] := by decide
  have hempty : (get_filtered_logs zeroScore mC4x).2 = [] := by
    rw [hg]
    show apply_search zeroScore mC4x (filter_logs mC4x.log_filter mC4x.logs) = []
    unfold apply_search fuzzy_search_threshold
    rw [hfl]
    simp [hp]
  have h1 : (get_filtered_logs zeroScore mC4x).1.view_offset = 7 := by
    rw [hg]
    rfl
  refine ⟨hne, by rw [hempty]; rfl, h1, ?_⟩
  rw [h1, hempty]
  decide

/-- Witness for `c4_search_stage_amended` at a concrete input. -/
theorem c4_search_stage_amended_witness :
    mC4.search_input ≠ "" ∧
    ((∀ l, l ∈ (get_filtered_logs scoreC4 mC4).2 ↔
        l ∈ filter_logs mC4.log_filter mC4.logs ∧ (0.4 : Rat) ≤ scoreC4 mC4.search_input l) ∧
     ((get_filtered_logs scoreC4 mC4).2).Sorted
       (fun a b => scoreC4 mC4.search_input a ≤ scoreC4 mC4.search_input b) ∧
     (get_filtered_logs scoreC4 mC4).1 = mC4 ∧
     (∀ h : Nat, (get_filtered_logs scoreC4 { mC4 with view_height := h }).2
        = (get_filtered_logs scoreC4 mC4).2)) :=
  ⟨by decide, c4_search_stage_amended scoreC4 mC4 (by decide)⟩

end LogView
